import Mathlib

/-!
Verification of the interviews questionnaire compiler and interview
interpreter.  The definitions below are a shallow embedding of the C++
sources (`src/server/payloads.cpp`, `src/server/ontology.cpp`,
`include/interviews/ontology.hpp`, `include/interviews/payloads.hpp`):
questions are identified by their index in questionnaire order, pointers
become `Option Nat`, maps become association lists, exceptions become
`Except`, and the external JavaScript evaluator (`Expr`) becomes an
explicit deterministic oracle.
-/

namespace Interviews

/-- Loop type of a question, mirroring `question::loop_type_t`
(`regular`, `begin_loop`, `end_loop`). -/
inductive LoopType where
  | regular
  | beginLoop
  | endLoop
deriving DecidableEq, Repr

/-- Mirror of `question_info` (ontology.hpp): index of the question in
questionnaire order, the loop nest (indices of the enclosing begin loops,
immediate parent last), and, for end loops only, the matching begin loop. -/
structure QInfo where
  index : Nat
  loopNest : List Nat
  matchingBeginLoop : Option Nat
deriving DecidableEq, Repr

/-- Mirror of `question_info::get_parent_begin_loop`: the last element
of the loop nest, if any. -/
def QInfo.parentBeginLoop (qi : QInfo) : Option Nat :=
  qi.loopNest.getLast?

/-- One entry of the `question_infos_by_label_map`: label, question info
and the loop type of the question the label denotes. -/
structure MapEntry where
  label : String
  info : QInfo
  ltype : LoopType
deriving DecidableEq, Repr

/-- Mirror of `question_infos_by_label_map` (lookup by label). -/
def LabelMap := List MapEntry

/-- Label lookup, mirroring `m.find(label)`. -/
def LabelMap.find? (m : LabelMap) (l : String) : Option MapEntry :=
  List.find? (fun e => e.label == l) m

/-- Compile-time errors of the transition / function compiler
(`exception.hpp`).  `derefPastEnd` stands for the undefined behavior of
dereferencing the end iterator in `compile_transitions` when a
non-terminal last question has no source transition. -/
inductive CompileErr where
  | transitionIsMissing
  | transitionsLackCatchAll
  | catchAllIsNotLast
  | transitionDoesNotExist
  | transitionsToItself
  | transitionsToPreviousQuestion
  | transitionsAcrossLoop
  | beginLoopTransitionsToBeginLoop
  | bothConditionAndCode
  | argumentDoesNotExist
  | conditionIsIncorrect
  | derefPastEnd
  | functionHasNoCode
  | parameterDoesNotExist
  | parameterRefersToSelf
  | parameterRefersToSubsequentQuestion
  | parameterDifferentLoopNest
deriving DecidableEq, Repr

/-- Mirror of `source_transition` (payloads.hpp): condition code, plain
code, destination label and the parameter labels of the condition. -/
structure SourceTransition where
  condition : String
  code : String
  destination : String
  parameters : List String
deriving DecidableEq, Repr

/-- A compiled transition: `cond = none` for the synthesized catch-all
transition (built with the destination-only `transition` constructor),
otherwise the code of the condition function (possibly `""`); the
parameter question indices; and the destination question index. -/
structure CompiledTransition where
  cond : Option String
  params : List Nat
  dest : Nat
deriving DecidableEq, Repr

/-- Parameter loop of `source_function::compile` (payloads.cpp:28-52):
every parameter label must exist, not be the question itself, not be a
subsequent question, and have the same loop nest.  Returns the compiled
parameter indices. -/
def sourceFunctionParams (m : LabelMap) (qi : QInfo) :
    List String → Except CompileErr (List Nat)
  | [] => .ok []
  | p :: rest =>
    match m.find? p with
    | none => .error .parameterDoesNotExist
    | some f =>
      if qi.index = f.info.index then .error .parameterRefersToSelf
      else if qi.index < f.info.index then .error .parameterRefersToSubsequentQuestion
      else if qi.loopNest ≠ f.info.loopNest then .error .parameterDifferentLoopNest
      else
        match sourceFunctionParams m qi rest with
        | .error e => .error e
        | .ok rs => .ok (f.info.index :: rs)

/-- Mirror of `source_function::compile` (payloads.cpp:20-55): empty
code is rejected, then the parameters are checked one by one. -/
def sourceFunctionCompile (m : LabelMap) (qi : QInfo) (code : String)
    (pars : List String) : Except CompileErr (List Nat) :=
  if code = "" then .error .functionHasNoCode
  else sourceFunctionParams m qi pars

/-- Mirror of the transition-argument loop of
`source_question::compile_transitions` (payloads.cpp:770-779): each
parameter label must exist in the map; nothing else is checked there. -/
def checkArgs (m : LabelMap) : List String → Except CompileErr (List Nat)
  | [] => .ok []
  | p :: rest =>
    match m.find? p with
    | none => .error .argumentDoesNotExist
    | some f =>
      match checkArgs m rest with
      | .error e => .error e
      | .ok rs => .ok (f.info.index :: rs)

/-- Mirror of the loop-crossing switch of
`source_question::compile_transitions` (payloads.cpp:680-741).
`qpbl` is the parent begin loop of the source question, `qn` its index,
`d` the map entry of the destination. -/
def checkLoopCrossing (qltype : LoopType) (qpbl : Option Nat) (qn : Nat)
    (d : MapEntry) : Except CompileErr Unit :=
  match qltype with
  | .regular | .endLoop =>
    if qpbl ≠ d.info.parentBeginLoop ∨
       (d.ltype = .endLoop ∧ qpbl ≠ d.info.matchingBeginLoop) then
      .error .transitionsAcrossLoop
    else .ok ()
  | .beginLoop =>
    match d.ltype with
    | .beginLoop => .error .beginLoopTransitionsToBeginLoop
    | .endLoop =>
      if d.info.matchingBeginLoop ≠ some qn then .error .transitionsAcrossLoop
      else .ok ()
    | .regular =>
      if d.info.parentBeginLoop ≠ some qn then .error .transitionsAcrossLoop
      else .ok ()

/-- Final step of compiling one source transition: the `Expr` syntactic
compile of the condition code (`q->check_conditions()`,
payloads.cpp:784-789) and the construction of the transition. -/
def finishTransition (exprOk : String → Bool) (ocode : String)
    (ps : List Nat) (dn : Nat) : Except CompileErr CompiledTransition :=
  if exprOk ocode then .ok ⟨some ocode, ps, dn⟩
  else .error .conditionIsIncorrect

/-- Compilation of one source transition, mirroring the body of the loop
in `source_question::compile_transitions` (payloads.cpp:646-791):
non-last catch-all check, destination existence, self / backward checks,
loop-crossing checks, condition-vs-code exclusivity, argument existence,
and the `Expr` syntactic compile of the condition (`exprOk`). -/
def compileOne (exprOk : String → Bool) (m : LabelMap) (qn : Nat)
    (qpbl : Option Nat) (qltype : LoopType) (isLast : Bool)
    (t : SourceTransition) : Except CompileErr CompiledTransition :=
  if ¬isLast ∧ t.condition = "" ∧ t.code = "" then .error .catchAllIsNotLast
  else
    match m.find? t.destination with
    | none => .error .transitionDoesNotExist
    | some d =>
      if qn = d.info.index then .error .transitionsToItself
      else if qn > d.info.index then .error .transitionsToPreviousQuestion
      else
        match checkLoopCrossing qltype qpbl qn d with
        | .error e => .error e
        | .ok _ =>
          if t.condition ≠ "" ∧ t.code ≠ "" then .error .bothConditionAndCode
          else
            match checkArgs m t.parameters with
            | .error e => .error e
            | .ok ps =>
              finishTransition exprOk
                (if t.condition ≠ "" then t.condition else t.code) ps d.info.index

/-- Compilation of a non-empty list of source transitions; the last
element is compiled with `isLast = true`. -/
def compileList (exprOk : String → Bool) (m : LabelMap) (qn : Nat)
    (qpbl : Option Nat) (qltype : LoopType) :
    List SourceTransition → Except CompileErr (List CompiledTransition)
  | [] => .ok []
  | [t] =>
    match compileOne exprOk m qn qpbl qltype true t with
    | .error e => .error e
    | .ok c => .ok [c]
  | t :: t2 :: rest =>
    match compileOne exprOk m qn qpbl qltype false t with
    | .error e => .error e
    | .ok c =>
      match compileList exprOk m qn qpbl qltype (t2 :: rest) with
      | .error e => .error e
      | .ok cs => .ok (c :: cs)

/-- Mirror of `source_question::compile_transitions`
(payloads.cpp:608-793).  `total` is the number of questions of the
questionnaire; `canBeFinal` is `q->can_be_final()`.  With zero source
transitions a potentially-final question compiles to zero transitions,
otherwise a single unconditional transition to the next question in
order is synthesized (dereferencing the end iterator — a last question —
is modeled as the error `derefPastEnd`).  With source transitions, the
last one must have an empty condition, and each is compiled in order. -/
def compileTransitions (exprOk : String → Bool) (m : LabelMap) (qqi : QInfo)
    (qltype : LoopType) (canBeFinal : Bool) (total : Nat)
    (srcTs : List SourceTransition) :
    Except CompileErr (List CompiledTransition) :=
  match srcTs with
  | [] =>
    if canBeFinal then .ok []
    else if total ≤ qqi.index then .error .transitionIsMissing
    else if qqi.index + 1 < total then .ok [⟨none, [], qqi.index + 1⟩]
    else .error .derefPastEnd
  | _ :: _ =>
    match srcTs.getLast? with
    | none => .error .transitionIsMissing
    | some tl =>
      if tl.condition ≠ "" then .error .transitionsLackCatchAll
      else compileList exprOk m qqi.index qqi.parentBeginLoop qltype srcTs

/-! ### Answer payload compilation (payloads.cpp:1016-1096, payloads.hpp:2020-2100) -/

/-- Runtime answer errors raised while compiling an answer payload. -/
inductive AnswerErr where
  | answerIsIncorrect
  | selectionIsInvalid
deriving DecidableEq, Repr

/-- Mirror of `choice_payload`: a chosen option index and a comment. -/
structure ChoicePayload where
  index : Nat
  comment : String
deriving DecidableEq, Repr

/-- Mirror of `choice` (ontology.hpp): the option-localization found for
the chosen index is represented by the index itself. -/
structure Choice where
  optionIndex : Nat
  comment : String
deriving DecidableEq, Repr

/-- Mirror of `question_body_input` (ontology.hpp:741-767): style is
elided; only the flags are kept. -/
structure QuestionBodyInput where
  hasComment : Bool
  optional : Bool
deriving DecidableEq, Repr

/-- Compiled answer bodies, mirroring the `answer_body_*` hierarchy. -/
inductive AnswerBody where
  | message
  | input (text comment : String)
  | select (c : Choice) (comment : String)
  | selectAtMost (cs : List Choice) (comment : String)
  | selectLimit (cs : List Choice) (comment : String)
  | rankAtMost (cs : List Choice) (comment : String)
  | rankLimit (cs : List Choice) (comment : String)
deriving DecidableEq, Repr

/-- Mirror of `question_localization_body_with_options::find_option_localization`
(ontology.cpp:718-731): out-of-range indices raise `selection_is_invalid`. -/
def findOptionLocalization (numOptions i : Nat) : Except AnswerErr Nat :=
  if numOptions ≤ i then .error .selectionIsInvalid else .ok i

/-- Mirror of `answer_multiple_choices_payload::shared_compile`
(payloads.hpp:2056-2062): each choice is converted through
`find_option_localization`; no other validation happens there. -/
def sharedCompile (numOptions : Nat) :
    List ChoicePayload → Except AnswerErr (List Choice)
  | [] => .ok []
  | cp :: rest =>
    match findOptionLocalization numOptions cp.index with
    | .error e => .error e
    | .ok i =>
      match sharedCompile numOptions rest with
      | .error e => .error e
      | .ok cs => .ok (⟨i, cp.comment⟩ :: cs)

/-- Mirror of `answer_message_payload::compile` (payloads.cpp:1016). -/
def answerMessageCompile : Except AnswerErr AnswerBody :=
  .ok .message

/-- Mirror of `answer_input_payload::compile` (payloads.cpp:1020-1022).
The question body is received and ignored: no validation is performed on
the submitted text, whether or not the input is optional. -/
def answerInputCompile (_qb : QuestionBodyInput) (input comment : String) :
    Except AnswerErr AnswerBody :=
  .ok (.input input comment)

/-- Mirror of `answer_select_payload::compile` (payloads.cpp:1024-1040):
the choice must be present and its index within the option count. -/
def answerSelectCompile (numOptions : Nat) (choice : Option ChoicePayload)
    (comment : String) : Except AnswerErr AnswerBody :=
  match choice with
  | none => .error .answerIsIncorrect
  | some c =>
    if numOptions ≤ c.index then .error .answerIsIncorrect
    else
      match findOptionLocalization numOptions c.index with
      | .error e => .error e
      | .ok i => .ok (.select ⟨i, c.comment⟩ comment)

/-- Mirror of `answer_select_at_most_payload::compile`
(payloads.cpp:1042-1054): the number of choices must not exceed the
limit; then `shared_compile` converts the choices. -/
def answerSelectAtMostCompile (limit numOptions : Nat)
    (choices : List ChoicePayload) (comment : String) :
    Except AnswerErr AnswerBody :=
  if limit < choices.length then .error .answerIsIncorrect
  else
    match sharedCompile numOptions choices with
    | .error e => .error e
    | .ok cs => .ok (.selectAtMost cs comment)

/-- Mirror of `answer_select_limit_payload::compile`
(payloads.cpp:1056-1068): the number of choices must equal the limit;
then `shared_compile` converts the choices. -/
def answerSelectLimitCompile (limit numOptions : Nat)
    (choices : List ChoicePayload) (comment : String) :
    Except AnswerErr AnswerBody :=
  if choices.length ≠ limit then .error .answerIsIncorrect
  else
    match sharedCompile numOptions choices with
    | .error e => .error e
    | .ok cs => .ok (.selectLimit cs comment)

/-- Mirror of `answer_rank_at_most_payload::compile`
(payloads.cpp:1070-1082). -/
def answerRankAtMostCompile (limit numOptions : Nat)
    (choices : List ChoicePayload) (comment : String) :
    Except AnswerErr AnswerBody :=
  if limit < choices.length then .error .answerIsIncorrect
  else
    match sharedCompile numOptions choices with
    | .error e => .error e
    | .ok cs => .ok (.rankAtMost cs comment)

/-- Mirror of `answer_rank_limit_payload::compile`
(payloads.cpp:1084-1096). -/
def answerRankLimitCompile (limit numOptions : Nat)
    (choices : List ChoicePayload) (comment : String) :
    Except AnswerErr AnswerBody :=
  if choices.length ≠ limit then .error .answerIsIncorrect
  else
    match sharedCompile numOptions choices with
    | .error e => .error e
    | .ok cs => .ok (.rankLimit cs comment)

/-! ### Questionnaire localization check (ontology.cpp:990-1071, ontology.hpp:1321-1491, 2136-2230) -/

/-- Localization check errors. -/
inductive LocErr where
  | localizationIsDuplicate
  | localizationDoesNotExist
  | templateLocalizationDoesNotExist
deriving DecidableEq, Repr

/-- The slice of `question` needed by `questionnaire_localization::force_check`:
whether the question supports a localization (`question_with_body`
overrides this to true; loops and template questions leave it false) and
whether it is a `question_from_template`. -/
structure LocQuestion where
  supportsLoc : Bool
  fromTemplate : Bool
deriving DecidableEq, Repr

/-- The slice of `questionnaire` needed by the localization check:
questions, the lock flag and the change counter (initialized at 1). -/
structure QuestionnaireDoc where
  questions : List LocQuestion
  locked : Bool
  changeCount : Nat
deriving DecidableEq, Repr

/-- Mirror of `questionnaire::push_question_back` (ontology.hpp:1400-1404):
fails when locked, appends the question and bumps the change counter
(`touch`). -/
def QuestionnaireDoc.pushQuestionBack (qq : QuestionnaireDoc)
    (q : LocQuestion) : Option QuestionnaireDoc :=
  if qq.locked then none
  else some { qq with questions := qq.questions ++ [q],
                      changeCount := qq.changeCount + 1 }

/-- The slice of `questionnaire_localization` needed by `check`: the
change count of the questionnaire at the last successful check
(initialized at 0) and the indices of the questions this localization
localizes, in order. -/
structure QLocalizationDoc where
  qChangeCount : Nat
  localizedQuestions : List Nat
deriving DecidableEq, Repr

/-- Mirror of `questionnaire_localization::dump` (ontology.cpp:990-1004):
walks the question localizations, failing on a duplicate, and returns
the set of localized questions. -/
def dumpLocalizations (seen : List Nat) :
    List Nat → Except LocErr (List Nat)
  | [] => .ok seen
  | q :: rest =>
    if q ∈ seen then .error .localizationIsDuplicate
    else dumpLocalizations (q :: seen) rest

/-- Completeness walk of `questionnaire_localization::force_check`
(ontology.cpp:1043-1069): each question lacking a localization must not
support one, and if it comes from a template its template localization
must exist in the library (`lib` lists the question indices whose
template localization exists for the language). -/
def forceCheckWalk (mset lib : List Nat) :
    Nat → List LocQuestion → Except LocErr Unit
  | _, [] => .ok ()
  | i, q :: rest =>
    if i ∈ mset then forceCheckWalk mset lib (i + 1) rest
    else if q.supportsLoc then .error .localizationDoesNotExist
    else if q.fromTemplate ∧ i ∉ lib then .error .templateLocalizationDoesNotExist
    else forceCheckWalk mset lib (i + 1) rest

/-- Mirror of `questionnaire_localization::force_check`
(ontology.cpp:1026-1071). -/
def forceCheck (lib : List Nat) (qq : QuestionnaireDoc)
    (ql : QLocalizationDoc) : Except LocErr Unit :=
  match dumpLocalizations [] ql.localizedQuestions with
  | .error e => .error e
  | .ok mset => forceCheckWalk mset lib 0 qq.questions

/-- Mirror of `questionnaire_localization::check` (ontology.cpp:1006-1016):
a no-op when the stored change count equals the questionnaire's current
one; otherwise runs `force_check` and records the current count. -/
def qlCheck (lib : List Nat) (qq : QuestionnaireDoc)
    (ql : QLocalizationDoc) : Except LocErr QLocalizationDoc :=
  if ql.qChangeCount = qq.changeCount then .ok ql
  else
    match forceCheck lib qq ql with
    | .error e => .error e
    | .ok _ => .ok { ql with qChangeCount := qq.changeCount }

/-! ### Parametric text rendering (`question_body::calculate_text`, ontology.cpp:232-440) -/

/-- JSON-like values returned by the expression host. -/
inductive JVal where
  | null
  | bool (b : Bool)
  | num (n : Int)
  | str (s : String)
  | arr (xs : List JVal)
deriving Repr

mutual

/-- Boolean equality on JSON values. -/
def JVal.beq : JVal → JVal → Bool
  | .null, .null => true
  | .bool a, .bool c => a == c
  | .num a, .num c => a == c
  | .str a, .str c => a == c
  | .arr a, .arr c => JVal.beqList a c
  | _, _ => false

/-- Boolean equality on lists of JSON values. -/
def JVal.beqList : List JVal → List JVal → Bool
  | [], [] => true
  | a :: as, c :: cs => JVal.beq a c && JVal.beqList as cs
  | _, _ => false

end

mutual

/-- Boolean equality on JSON values agrees with propositional equality. -/
theorem JVal.beq_iff : ∀ a b : JVal, JVal.beq a b = true ↔ a = b
  | .null, b => by cases b <;> simp [JVal.beq]
  | .bool _, b => by cases b <;> simp [JVal.beq]
  | .num _, b => by cases b <;> simp [JVal.beq]
  | .str _, b => by cases b <;> simp [JVal.beq]
  | .arr xs, .null => by simp [JVal.beq]
  | .arr xs, .bool _ => by simp [JVal.beq]
  | .arr xs, .num _ => by simp [JVal.beq]
  | .arr xs, .str _ => by simp [JVal.beq]
  | .arr xs, .arr ys => by
      simp only [JVal.beq, JVal.arr.injEq]
      exact JVal.beqList_iff xs ys

/-- Boolean equality on lists of JSON values agrees with propositional
equality. -/
theorem JVal.beqList_iff : ∀ as bs : List JVal, JVal.beqList as bs = true ↔ as = bs
  | [], [] => by simp [JVal.beqList]
  | [], _ :: _ => by simp [JVal.beqList]
  | _ :: _, [] => by simp [JVal.beqList]
  | a :: as, b :: bs => by
      simp [JVal.beqList, JVal.beq_iff a b, JVal.beqList_iff as bs]

end

instance : DecidableEq JVal :=
  fun a b => decidable_of_iff (JVal.beq a b = true) (JVal.beq_iff a b)

mutual

/-- Canonical serialization of a JSON value, as `operator<<` on
`json::value` produces it: strings are quoted. -/
def JVal.render : JVal → String
  | .null => "null"
  | .bool b => cond b "true" "false"
  | .num n => toString n
  | .str s => "\"" ++ s ++ "\""
  | .arr xs => "[" ++ JVal.renderList xs ++ "]"

/-- Serialization of a list of JSON values, comma separated. -/
def JVal.renderList : List JVal → String
  | [] => ""
  | [x] => x.render
  | x :: y :: rest => x.render ++ "," ++ JVal.renderList (y :: rest)

end

/-- Insertion of a computed value into the text stream
(ontology.cpp:372-377, 420-425): a string is inserted without its
quotes, any other value in canonical form. -/
def stripOrRender : JVal → String
  | .str s => s
  | v => v.render

/-- Errors raised while calculating a parametric text. -/
inductive TextErr where
  | functionCallOutOfBounds
  | loopVariableUnknown
deriving DecidableEq, Repr

/-- The escape lead character `@` (`eval_prefix`). -/
def atChar : Char := '@'

/-- The escape opening brace (`eval_open`). -/
def evalOpen : Char := Char.ofNat 123

/-- The escape closing brace (`eval_close`). -/
def evalClose : Char := Char.ofNat 125

/-- Digit accumulation loop of `calculate_text` (ontology.cpp:285-303),
including the faulty update `funcn += funcn * 10 + c - '0'` the source
performs instead of an assignment.  `ss` is the side stream accumulated
for the abort case.  Returns the accumulated number, the side stream,
the unconsumed characters and the stopping character (`none` when the
text ended). -/
def scanNumber (funcn : Nat) (ss : String) :
    List Char → Nat × String × List Char × Option Char
  | [] => (funcn, ss, [], none)
  | c :: rest =>
    if c.isDigit then
      scanNumber (funcn + (funcn * 10 + (c.toNat - 48))) (ss.push c) rest
    else (funcn, ss, c :: rest, some c)

/-- Loop-variable name accumulation loop of `calculate_text`
(ontology.cpp:386-404).  Returns the name, the unconsumed characters and
the stopping character (`none` when the text ended). -/
def scanVarName (acc : String) :
    List Char → String × List Char × Option Char
  | [] => (acc, [], none)
  | c :: rest =>
    if c = evalClose then (acc, c :: rest, some c)
    else scanVarName (acc.push c) rest

/-- Character loop of `question_body::calculate_text`
(ontology.cpp:254-437), fueled.  `fns` holds the return value of each
text-function (their evaluation through the expression host is
deterministic per render and abstracted by the value itself), `lvs` the
loop variables visible on the stack (innermost first), `memo` the
per-render memoization flags, `s` the output accumulated so far. -/
def calcTextGo (fns : List JVal) (lvs : List (String × JVal)) :
    Nat → List Char → List Bool → String → Except TextErr String
  | 0, _, _, s => .ok s
  | _ + 1, [], _, s => .ok s
  | fuel + 1, c :: rest, memo, s =>
    if c ≠ atChar then calcTextGo fns lvs fuel rest memo (s.push c)
    else
      match rest with
      | [] => .ok (s.push atChar)
      | c1 :: rest1 =>
        if c1 ≠ evalOpen then calcTextGo fns lvs fuel rest1 memo (s.push c1)
        else
          match rest1 with
          | [] => .ok (s.push evalOpen)
          | c2 :: rest2 =>
            if c2.isDigit then
              let ss0 := (String.singleton atChar).push evalOpen |>.push c2
              match scanNumber (c2.toNat - 48) ss0 rest2 with
              | (_, ss, _, none) => .ok (s ++ ss)
              | (funcn, ss, rest3, some stop) =>
                if stop ≠ evalClose then .ok (s ++ ss)
                else if fns.length ≤ funcn then .error .functionCallOutOfBounds
                else if memo.getD funcn false then
                  calcTextGo fns lvs fuel (rest3.drop 1) memo
                    (s ++ (fns.getD funcn .null).render)
                else
                  calcTextGo fns lvs fuel (rest3.drop 1) (memo.set funcn true)
                    (s ++ stripOrRender (fns.getD funcn .null))
            else
              match scanVarName (String.singleton c2) rest2 with
              | (nm, _, none) =>
                .ok (s ++ ((String.singleton atChar).push evalOpen ++ nm))
              | (nm, rest3, some _) =>
                let v := ((lvs.find? (fun p => p.1 == nm)).map (·.2)).getD .null
                if v = .null then .error .loopVariableUnknown
                else calcTextGo fns lvs fuel (rest3.drop 1) memo (s ++ stripOrRender v)

/-- Mirror of `question_body::calculate_text` (ontology.cpp:232-440).
`stackEmpty` is `ts.empty()`: with no text-functions and an empty loop
stack the text is returned verbatim (fast path, ontology.cpp:239-242).
The fuel `text.length + 1` dominates the character loop, which consumes
at least one character per step. -/
def calculateText (fns : List JVal) (stackEmpty : Bool)
    (lvs : List (String × JVal)) (text : String) : Except TextErr String :=
  if fns.isEmpty && stackEmpty then .ok text
  else calcTextGo fns lvs (text.length + 1) text.toList
    (List.replicate fns.length false) ""

/-! ### The interview interpreter (ontology.cpp:1258-1800, ontology.hpp:2607-3010)

Questions are identified by their index in questionnaire order.  An
answer records its question and its compiled body.  The expression host
is abstracted by a deterministic `Oracle`: condition truthiness depends
on the condition code and the injected arguments, the loop operand and
the rendered parametric text on the current stack. -/

/-- Mirror of `answer` (ontology.hpp): the question answered and the
compiled answer body.  Equality of two `Answer` values is exactly the
equivalence the spec uses (same question, same body kind, same option
indices, same input texts). -/
structure Answer where
  question : Nat
  body : AnswerBody
deriving DecidableEq, Repr

/-- Mirror of the `entry` hierarchy (ontology.hpp:2607-2738):
`entry_answer`, `entry_begin_loop` (question, weak operand answer,
index) and `entry_end_loop`. -/
inductive Entry where
  | answer (a : Answer)
  | beginLoop (q : Nat) (operandAnswer : Answer) (index : Nat)
  | endLoop (q : Nat)
deriving DecidableEq, Repr

/-- Mirror of `entry::get_question`. -/
def Entry.question : Entry → Nat
  | .answer a => a.question
  | .beginLoop q _ _ => q
  | .endLoop q => q

/-- Mirror of `entry::get_loop_type`. -/
def Entry.loopType : Entry → LoopType
  | .answer _ => .regular
  | .beginLoop _ _ _ => .beginLoop
  | .endLoop _ => .endLoop

/-- Mirror of `the_stack_frame` (ontology.hpp:2740-2841): the begin
loop, the operand answer, the operand value computed once at frame
construction, its array size, the loop index and the per-frame map of
answers by question. -/
structure Frame where
  qbl : Nat
  loa : Answer
  operand : JVal
  operandSize : Nat
  index : Nat
  answers : List (Nat × Answer)
deriving DecidableEq, Repr

/-- Mirror of `the_stack` (ontology.hpp:2845-3010): the frames (head is
the innermost frame, i.e. the back of the C++ vector) and the top-level
map of answers produced outside any loop. -/
structure Stack where
  frames : List Frame
  topAnswers : List (Nat × Answer)
deriving DecidableEq, Repr

/-- The empty stack. -/
def Stack.empty : Stack := ⟨[], []⟩

/-- Map update for the answers-by-question maps
(`_answers_by_question_map[key] = a`). -/
def setAnswer (m : List (Nat × Answer)) (a : Answer) : List (Nat × Answer) :=
  (a.question, a) :: m.filter (fun p => p.1 ≠ a.question)

/-- Lookup in an answers-by-question map. -/
def getAnswer (m : List (Nat × Answer)) (q : Nat) : Option Answer :=
  (m.find? (fun p => p.1 == q)).map (·.2)

/-- Mirror of `the_stack::find_answer` (ontology.hpp:2975-2995):
innermost frames first, then the top-level map. -/
def Stack.findAnswer (st : Stack) (q : Nat) : Option Answer :=
  match st.frames.findSome? (fun f => getAnswer f.answers q) with
  | some a => some a
  | none => getAnswer st.topAnswers q

/-- Mirror of `the_stack::replace_answer` (ontology.hpp:2966-2973): the
answer goes into the innermost frame, or into the top-level map when no
frame is active. -/
def Stack.replaceAnswer (st : Stack) (a : Answer) : Stack :=
  match st.frames with
  | [] => { st with topAnswers := setAnswer st.topAnswers a }
  | f :: rest => { st with frames := { f with answers := setAnswer f.answers a } :: rest }

/-- The deterministic abstraction of the expression host and of
localized-text rendering.  `evalCond` decides the truthiness of a
condition code given the injected arguments (one per parameter
question: its index and its answer on the stack, or `none` when
skipped); `loopOperand` evaluates a begin loop's operand expression
against the operand answer and the stack; `calcText` renders the
localized text of a question under a stack. -/
structure Oracle where
  evalCond : String → List (Nat × Option Answer) → Bool
  loopOperand : Nat → Answer → Stack → JVal
  calcText : Nat → Stack → String

/-- Mirror of `the_stack_frame::calculate_loop_variable_value`
(ontology.cpp:68-79): the operand is evaluated and indexed; an
undefined or null element, or a non-array operand, yields null. -/
def loopVarValue (O : Oracle) (st : Stack) (qbl : Nat) (loa : Answer)
    (idx : Nat) : JVal :=
  match O.loopOperand qbl loa st with
  | .arr xs => (xs.get? idx).getD .null
  | _ => .null

/-- Mirror of the `the_stack_frame` constructor (ontology.hpp:2751-2767):
the operand is computed once; its size is its array length, or 0 when it
is not an array. -/
def mkFrame (O : Oracle) (st : Stack) (qbl : Nat) (loa : Answer) : Frame :=
  let op := O.loopOperand qbl loa st
  { qbl := qbl, loa := loa, operand := op,
    operandSize := match op with | .arr xs => xs.length | _ => 0,
    index := 0, answers := [] }

/-- Mirror of the three-argument `the_stack::process_begin_loop`
(ontology.hpp:2896-2907): a frame is pushed unless the top frame already
belongs to this begin loop. -/
def Stack.processBeginLoopEntry (st : Stack) (O : Oracle) (qbl : Nat)
    (loa : Answer) : Stack :=
  match st.frames with
  | [] => { st with frames := [mkFrame O st qbl loa] }
  | f :: _ =>
    if f.qbl = qbl then st
    else { st with frames := mkFrame O st qbl loa :: st.frames }

/-- Mirror of the two-argument `the_stack::process_begin_loop`
(ontology.hpp:2910-2927): look up the operand answer; absent, or a null
0-th loop-variable value, means the loop is skipped (no frame pushed and
`none` returned); otherwise the frame is pushed and the operand answer
returned. -/
def Stack.processBeginLoop (st : Stack) (O : Oracle) (qbl : Nat)
    (operandQuestion : Nat) : Option Answer × Stack :=
  match st.findAnswer operandQuestion with
  | none => (none, st)
  | some loa =>
    if loopVarValue O st qbl loa 0 = .null then (none, st)
    else (some loa, st.processBeginLoopEntry O qbl loa)

/-- Mirror of `the_stack::process_end_loop` (ontology.hpp:2930-2943):
the top frame's index is incremented; reaching the operand size pops the
frame and returns `false`, otherwise `true` (still iterating).  The C++
asserts a non-empty stack; the empty case is unreachable under the
callers' guards and returns the stack unchanged. -/
def Stack.processEndLoop (st : Stack) : Bool × Stack :=
  match st.frames with
  | [] => (false, st)
  | f :: rest =>
    if f.index + 1 = f.operandSize then (false, { st with frames := rest })
    else (true, { st with frames := { f with index := f.index + 1 } :: rest })

/-- Mirror of `the_stack::process_entry` (ontology.hpp:2865-2894). -/
def Stack.processEntry (st : Stack) (O : Oracle) : Entry → Stack
  | .answer a => st.replaceAnswer a
  | .beginLoop q loa _ => st.processBeginLoopEntry O q loa
  | .endLoop _ => (st.processEndLoop).2

/-- Mirror of `interview::calculate` (ontology.cpp:1523-1548): replay a
history prefix into a fresh stack. -/
def replayStack (O : Oracle) (hist : List Entry) : Stack :=
  hist.foldl (fun st e => st.processEntry O e) Stack.empty

/-- Mirror of `transition` (ontology.hpp:530-570): condition function
code (`none` for the destination-only constructor used by synthesized
transitions), parameter question indices and destination. -/
structure Transition where
  cond : Option String
  params : List Nat
  dest : Nat
deriving DecidableEq, Repr

/-- Mirror of `transition::run` (ontology.cpp:93-148): an absent or
empty condition yields the destination; otherwise the parameters are
injected from the stack and the condition is evaluated, a truthy result
yielding the destination. -/
def Transition.run (O : Oracle) (st : Stack) (t : Transition) : Option Nat :=
  match t.cond with
  | none => some t.dest
  | some c =>
    if c = "" then some t.dest
    else if O.evalCond c (t.params.map (fun p => (p, st.findAnswer p))) then some t.dest
    else none

/-- Whether a transition is taken when reached: its condition is absent,
empty, or evaluates truthy (spec vocabulary for `transition::run`). -/
def Transition.enabled (O : Oracle) (st : Stack) (t : Transition) : Bool :=
  match t.cond with
  | none => true
  | some c => (c == "") || O.evalCond c (t.params.map (fun p => (p, st.findAnswer p)))

/-- Mirror of a compiled `question` as the interpreter consumes it:
loop type, `can_be_final`, the operand question (meaningful for begin
loops), the parameter lists of the body's text-functions (used by
`is_impacted_by`) and the outgoing transitions.  Regular questions are
the ones supporting localization (`question_with_body`). -/
structure Question where
  ltype : LoopType
  canBeFinal : Bool
  operandQuestion : Nat
  fnParams : List (List Nat)
  transitions : List Transition
deriving DecidableEq, Repr

/-- A questionnaire: its questions in order. -/
def Questionnaire := List Question

/-- Mirror of the loop of `question::run_transitions`
(ontology.cpp:168-180): the transitions are run in list order and the
first non-null result is returned; falling through every transition is
the `internal_error` throw, modeled as `none`. -/
def runTransitionsList (O : Oracle) (st : Stack) : List Transition → Option Nat
  | [] => none
  | t :: rest =>
    match t.run O st with
    | some d => some d
    | none => runTransitionsList O st rest

/-- Mirror of `question::run_transitions` (ontology.cpp:168-180). -/
def Question.runTransitions (q : Question) (O : Oracle) (st : Stack) : Option Nat :=
  runTransitionsList O st q.transitions

/-- Mirror of `question::is_final` (ontology.hpp:1009-1011). -/
def Question.isFinal (q : Question) : Bool :=
  q.transitions.isEmpty && q.canBeFinal

/-- Mirror of `question_body::is_impacted_by` through
`question_with_body::is_impacted_by` (ontology.hpp:675-685): some
text-function uses the question as a parameter. -/
def Question.isImpactedBy (q : Question) (rq : Nat) : Bool :=
  q.fnParams.any (fun ps => ps.contains rq)

/-- Mirror of `interview::find_matching_end_loop` (ontology.cpp:1335-1373):
scan forward from the begin loop with a balance counter. -/
def findMatchingEndLoop (Q : Questionnaire) (qbl : Nat) : Option Nat :=
  go (List.drop (qbl + 1) Q) (qbl + 1) 1
where
  /-- Forward scan carrying the current index and the loop counter. -/
  go : List Question → Nat → Nat → Option Nat
  | [], _, _ => none
  | q :: rest, i, lc =>
    match q.ltype with
    | .beginLoop => go rest (i + 1) (lc + 1)
    | .endLoop => if lc = 1 then some i else go rest (i + 1) (lc - 1)
    | .regular => go rest (i + 1) lc

/-- Interpreter state while advancing: the interview history and the
loop stack. -/
structure IState where
  hist : List Entry
  stk : Stack
deriving DecidableEq, Repr

/-- Mirror of `interview::calculate_new_next_question(the_stack&, q)`
together with `interview::process_begin_loop` and
`interview::process_end_loop` (ontology.cpp:1291-1305, 1376-1491),
fueled.  A regular question is returned as the new next question.  A
begin loop is entered (frame pushed, `entry_begin_loop` recorded with
the top frame's index, its transitions run) when the operand answer is
found and the 0-th loop-variable value is not null; otherwise the loop
is skipped: the matching end loop's transitions are run with no history
entry recorded.  An end loop records an `entry_end_loop`, increments the
top frame's index, and either re-runs the begin loop's transitions
(still iterating) or pops the frame and runs the end loop's own
transitions.  `none` models the `internal_error` /
`question_loop_logic_error` throws and fuel exhaustion. -/
def calcNewNext (Q : Questionnaire) (O : Oracle) :
    Nat → IState → Nat → Option (IState × Nat)
  | 0, _, _ => none
  | fuel + 1, st, qi =>
    match List.get? Q qi with
    | none => none
    | some q =>
      match q.ltype with
      | .regular => some (st, qi)
      | .beginLoop =>
        match st.stk.processBeginLoop O qi q.operandQuestion with
        | (some loa, stk') =>
          let idx := match stk'.frames with | f :: _ => f.index | [] => 0
          let st' : IState := ⟨st.hist ++ [.beginLoop qi loa idx], stk'⟩
          match q.runTransitions O stk' with
          | none => none
          | some q' => calcNewNext Q O fuel st' q'
        | (none, _) =>
          match findMatchingEndLoop Q qi with
          | none => none
          | some qel =>
            match List.get? Q qel with
            | none => none
            | some qelq =>
              match qelq.runTransitions O st.stk with
              | none => none
              | some q' => calcNewNext Q O fuel st q'
      | .endLoop =>
        match st.stk.frames with
        | [] => none
        | _ :: _ =>
          let hist' := st.hist ++ [.endLoop qi]
          match st.stk.processEndLoop with
          | (true, stk') =>
            match stk'.frames with
            | [] => none
            | f :: _ =>
              match List.get? Q f.qbl with
              | none => none
              | some qblq =>
                match qblq.runTransitions O stk' with
                | none => none
                | some q' => calcNewNext Q O fuel ⟨hist', stk'⟩ q'
          | (false, stk') =>
            match q.runTransitions O stk' with
            | none => none
            | some q' => calcNewNext Q O fuel ⟨hist', stk'⟩ q'

/-- Mirror of `interview` as the interpreter sees it: the history, the
next question and whether the interview is completed. -/
structure Interview where
  hist : List Entry
  nextQuestion : Nat
  completed : Bool
deriving DecidableEq, Repr

/-- Mirror of the submit path (services.cpp:652-660,
`interview::add_answer` then `interview::move_ahead`,
ontology.cpp:1277-1289, 1307-1333): the answer entry is appended, the
stack is replayed from the full history, the transitions of the current
next question are run and loops are traversed; `set_next_question`
(ontology.hpp:3136-3140) completes the interview when the new next
question is final. -/
def Interview.submit (Q : Questionnaire) (O : Oracle) (fuel : Nat)
    (iv : Interview) (a : Answer) : Option Interview :=
  if iv.completed then none
  else
    let hist1 := iv.hist ++ [.answer a]
    let ts := replayStack O hist1
    match List.get? Q iv.nextQuestion with
    | none => none
    | some q =>
      match q.runTransitions O ts with
      | none => none
      | some q1 =>
        match calcNewNext Q O fuel ⟨hist1, ts⟩ q1 with
        | none => none
        | some (st', nq) =>
          match List.get? Q nq with
          | none => none
          | some nqq => some ⟨st'.hist, nq, nqq.isFinal⟩

/-- Mirror of `find_next_regular_question` (ontology.cpp:1550-1577),
fueled: loops are stepped through on the stack only (no history is
written) and each question's own transitions are followed until a
regular question is reached. -/
def findNextRegular (Q : Questionnaire) (O : Oracle) :
    Nat → Stack → Nat → Option (Stack × Nat)
  | 0, _, _ => none
  | fuel + 1, ts, qi =>
    match List.get? Q qi with
    | none => none
    | some q =>
      match q.ltype with
      | .regular => some (ts, qi)
      | .beginLoop =>
        let ts' := (ts.processBeginLoop O qi q.operandQuestion).2
        match q.runTransitions O ts' with
        | none => none
        | some q' => findNextRegular Q O fuel ts' q'
      | .endLoop =>
        let ts' := (ts.processEndLoop).2
        match q.runTransitions O ts' with
        | none => none
        | some q' => findNextRegular Q O fuel ts' q'

/-- Mirror of `entry::is_impacted_by` and its overrides
(ontology.hpp:2630-2698): an answer entry is impacted when its
question's text-functions use the revised question as a parameter; a
begin loop entry when its operand answer is the revised answer. -/
def Entry.isImpactedBy (Q : Questionnaire) (e : Entry) (pa : Answer) : Bool :=
  match e with
  | .answer a =>
    match List.get? Q a.question with
    | some q => q.isImpactedBy pa.question
    | none => false
  | .beginLoop _ loa _ => loa == pa
  | .endLoop _ => false

/-- Mirror of `process_impacted_entry` (ontology.cpp:1583-1625): for an
answer entry, the localized text is computed under the previous and the
new stack; a difference is a true impact, otherwise the answer is
replayed into both stacks.  For a begin loop entry, the loop operand is
computed under both stacks against the previous and the new answer; a
difference is a true impact, otherwise the begin loop is replayed into
both stacks.  Returns the impact flag and the updated stacks. -/
def processImpactedEntry (Q : Questionnaire) (O : Oracle)
    (pts nts : Stack) (ploa nloa : Answer) (e : Entry) :
    Bool × Stack × Stack :=
  match e with
  | .answer a =>
    let ptxt := O.calcText a.question pts
    let ntxt := O.calcText a.question nts
    if ptxt ≠ ntxt then (true, pts, nts)
    else (false, pts.replaceAnswer a, nts.replaceAnswer a)
  | .beginLoop qbl _ _ =>
    let plov := O.loopOperand qbl ploa pts
    let nlov := O.loopOperand qbl nloa nts
    if plov ≠ nlov then (true, pts, nts)
    else
      let opq := match List.get? Q qbl with | some q => q.operandQuestion | none => 0
      (false, (pts.processBeginLoop O qbl opq).2, (nts.processBeginLoop O qbl opq).2)
  | .endLoop _ => (true, pts, nts)

/-- Mirror of `interview::resect` (ontology.cpp:1878-1897): drop entries
until one whose question is the given one; returns that entry and the
remaining suffix, or `none` when the whole suffix is dropped. -/
def resect (q : Nat) : List Entry → Option (Entry × List Entry)
  | [] => none
  | e :: rest => if e.question = q then some (e, rest) else resect q rest

/-- The forward walk of `interview::revise_answer`
(ontology.cpp:1665-1799), fueled.  `done` is the history prefix already
retained, `rest` the suffix still to examine, `q` the question whose
transitions are run next, `pts`/`nts` the previous and new stacks,
`pa`/`na` the previous and new answers.  Returns the final history and
the new next question. -/
def reviseLoop (Q : Questionnaire) (O : Oracle) (pa na : Answer) :
    Nat → List Entry → List Entry → Nat → Stack → Stack →
    Option (List Entry × Nat)
  | 0, _, _, _, _, _ => none
  | fuel + 1, done, rest, q, pts, nts =>
    match List.get? Q q with
    | none => none
    | some qq =>
      match qq.runTransitions O nts with
      | none => none
      | some nnetq =>
        match rest with
        | [] =>
          match findNextRegular Q O (fuel + 1) nts nnetq with
          | none => none
          | some (_, nq) => some (done, nq)
        | nee :: rest' =>
          if nnetq ≠ nee.question then
            match resect nnetq (nee :: rest') with
            | none =>
              match findNextRegular Q O (fuel + 1) nts nnetq with
              | none => none
              | some (_, nq) => some (done, nq)
            | some (landing, rest'') =>
              if landing.isImpactedBy Q pa then
                match processImpactedEntry Q O pts nts pa na landing with
                | (true, _, nts2) =>
                  match findNextRegular Q O (fuel + 1) nts2 nnetq with
                  | none => none
                  | some (_, nq) => some (done, nq)
                | (false, pts2, nts2) =>
                  reviseLoop Q O pa na fuel (done ++ [landing]) rest'' nnetq
                    (pts2.processEntry O landing) (nts2.processEntry O landing)
              else
                reviseLoop Q O pa na fuel (done ++ [landing]) rest'' nnetq
                  (pts.processEntry O landing) (nts.processEntry O landing)
          else
            if nee.isImpactedBy Q pa then
              match processImpactedEntry Q O pts nts pa na nee with
              | (true, _, nts2) =>
                match findNextRegular Q O (fuel + 1) nts2 nnetq with
                | none => none
                | some (_, nq) => some (done, nq)
              | (false, pts2, nts2) =>
                reviseLoop Q O pa na fuel (done ++ [nee]) rest' nnetq
                  (pts2.processEntry O nee) (nts2.processEntry O nee)
            else
              reviseLoop Q O pa na fuel (done ++ [nee]) rest' nnetq
                (pts.processEntry O nee) (nts.processEntry O nee)

/-- Mirror of `interview::revise_answer` (ontology.cpp:1628-1800): the
entry at `pos` must be an answer to the same question as the new
answer; the stack is replayed up to it; the previous answer goes into
the previous stack, the new answer into the new stack; the new answer is
grafted over the old in the history; then the forward walk replays,
resects or truncates the rest, and the next question is recomputed. -/
def Interview.reviseAnswer (Q : Questionnaire) (O : Oracle) (fuel : Nat)
    (iv : Interview) (pos : Nat) (na : Answer) : Option Interview :=
  if iv.completed then none
  else
    match List.get? iv.hist pos with
    | some (.answer pa) =>
      if pa.question ≠ na.question then none
      else
        let pts0 := replayStack O (iv.hist.take pos)
        let pts := pts0.replaceAnswer pa
        let nts := pts0.replaceAnswer na
        let done := iv.hist.take pos ++ [.answer na]
        let rest := iv.hist.drop (pos + 1)
        match reviseLoop Q O pa na fuel done rest pa.question pts nts with
        | none => none
        | some (hist', nq) =>
          match List.get? Q nq with
          | none => none
          | some nqq => some ⟨hist', nq, nqq.isFinal⟩
    | _ => none

/-! ### General helpers for the theorems -/

/-- Whether an exceptional computation failed. -/
def exceptIsError {ε α : Type _} : Except ε α → Bool
  | .error _ => true
  | .ok _ => false

/-- Successful `shared_compile` output: the choices converted in order,
each keeping its index and comment. -/
theorem sharedCompile_ok_val (n : Nat) :
    ∀ cs : List ChoicePayload, (∀ cp ∈ cs, cp.index < n) →
      sharedCompile n cs = .ok (cs.map fun cp => (⟨cp.index, cp.comment⟩ : Choice))
  | [], _ => rfl
  | cp :: rest, h => by
      have hcp : cp.index < n := h cp (List.mem_cons_self cp rest)
      have ih := sharedCompile_ok_val n rest (fun c hc => h c (List.mem_cons_of_mem cp hc))
      simp only [sharedCompile, findOptionLocalization, if_neg (by omega : ¬ n ≤ cp.index), ih,
        List.map_cons]

/-- Success of `shared_compile` is equivalent to every chosen index
being within the option count; no other property of the choice list is
examined. -/
theorem sharedCompile_ok_iff (n : Nat) :
    ∀ cs : List ChoicePayload,
      exceptIsError (sharedCompile n cs) = false ↔ ∀ cp ∈ cs, cp.index < n
  | [] => by simp [sharedCompile, exceptIsError]
  | cp :: rest => by
      have ih := sharedCompile_ok_iff n rest
      by_cases hcp : n ≤ cp.index
      · have hres : sharedCompile n (cp :: rest) = .error .selectionIsInvalid := by
          simp [sharedCompile, findOptionLocalization, hcp]
        rw [hres]
        exact iff_of_false (by simp [exceptIsError])
          (fun h => absurd (h cp (List.mem_cons_self cp rest)) (by omega))
      · cases hr : sharedCompile n rest with
        | error e =>
          rw [hr] at ih
          have hres : sharedCompile n (cp :: rest) = .error e := by
            simp [sharedCompile, findOptionLocalization, hcp, hr]
          rw [hres]
          refine iff_of_false (by simp [exceptIsError]) (fun h => ?_)
          have : exceptIsError (α := List Choice) (.error e) = false :=
            ih.mpr fun c hc => h c (List.mem_cons_of_mem cp hc)
          simp [exceptIsError] at this
        | ok cs' =>
          rw [hr] at ih
          have hres : sharedCompile n (cp :: rest) = .ok (⟨cp.index, cp.comment⟩ :: cs') := by
            simp [sharedCompile, findOptionLocalization, hcp, hr]
          rw [hres]
          refine iff_of_true rfl ?_
          intro c hc
          rcases List.mem_cons.mp hc with h | h
          · subst h; omega
          · exact (ih.mp rfl) c h

/-! ### C2 -/

/-- C2 counterexample: an empty text submitted for a required
(non-optional, `optional = false`) input question is accepted:
`answer_input_payload::compile` performs no validation at all on the
input text, so submit does not fail with an answer-incorrect error. -/
theorem c2_counterexample :
    answerInputCompile ⟨false, false⟩ "" "" = .ok (.input "" "") := rfl

/-- C2 amended: submit validates a Select choice (present, index within
the option count) and a multiple-choice list's size against the limit
(at most for SelectAtMost/RankAtMost, exactly for
SelectExactly/RankExactly, each chosen index also needing to be within
the option count) — but an Input answer is always accepted: the
required/optional flag of the question body is never consulted and the
text may be empty. -/
theorem c2_answer_validation_amended :
    (∀ qb input comment, answerInputCompile qb input comment = .ok (.input input comment)) ∧
    (∀ n choice comment, exceptIsError (answerSelectCompile n choice comment) = false ↔
       ∃ cp, choice = some cp ∧ cp.index < n) ∧
    (∀ limit n cs comment, exceptIsError (answerSelectAtMostCompile limit n cs comment) = false ↔
       (cs.length ≤ limit ∧ ∀ cp ∈ cs, cp.index < n)) ∧
    (∀ limit n cs comment, exceptIsError (answerSelectLimitCompile limit n cs comment) = false ↔
       (cs.length = limit ∧ ∀ cp ∈ cs, cp.index < n)) ∧
    (∀ limit n cs comment, exceptIsError (answerRankAtMostCompile limit n cs comment) = false ↔
       (cs.length ≤ limit ∧ ∀ cp ∈ cs, cp.index < n)) ∧
    (∀ limit n cs comment, exceptIsError (answerRankLimitCompile limit n cs comment) = false ↔
       (cs.length = limit ∧ ∀ cp ∈ cs, cp.index < n)) := by
  refine ⟨fun _ _ _ => rfl, ?_, ?_, ?_, ?_, ?_⟩
  · intro n choice comment
    cases choice with
    | none =>
      exact iff_of_false (by simp [answerSelectCompile, exceptIsError])
        (fun h => by simp at h)
    | some cp =>
      by_cases hcp : n ≤ cp.index
      · have hres : answerSelectCompile n (some cp) comment = .error .answerIsIncorrect := by
          simp [answerSelectCompile, hcp]
        rw [hres]
        refine iff_of_false (by simp [exceptIsError]) ?_
        rintro ⟨cp', hcp', hlt⟩
        cases hcp'
        omega
      · have hres : answerSelectCompile n (some cp) comment =
            .ok (.select ⟨cp.index, cp.comment⟩ comment) := by
          simp [answerSelectCompile, hcp, findOptionLocalization]
        rw [hres]
        exact iff_of_true rfl ⟨cp, rfl, by omega⟩
  · intro limit n cs comment
    by_cases hl : limit < cs.length
    · have hres : answerSelectAtMostCompile limit n cs comment = .error .answerIsIncorrect := by
        simp [answerSelectAtMostCompile, hl]
      rw [hres]
      exact iff_of_false (by simp [exceptIsError]) (fun h => by omega)
    · cases hr : sharedCompile n cs with
      | error e =>
        have h2 := sharedCompile_ok_iff n cs
        rw [hr] at h2
        have hres : answerSelectAtMostCompile limit n cs comment = .error e := by
          simp [answerSelectAtMostCompile, hl, hr]
        rw [hres]
        refine iff_of_false (by simp [exceptIsError]) (fun h => ?_)
        have : exceptIsError (α := List Choice) (.error e) = false := h2.mpr h.2
        simp [exceptIsError] at this
      | ok cs' =>
        have h2 := sharedCompile_ok_iff n cs
        rw [hr] at h2
        have hres : answerSelectAtMostCompile limit n cs comment =
            .ok (.selectAtMost cs' comment) := by
          simp [answerSelectAtMostCompile, hl, hr]
        rw [hres]
        exact iff_of_true rfl ⟨by omega, h2.mp rfl⟩
  · intro limit n cs comment
    by_cases hl : cs.length = limit
    · cases hr : sharedCompile n cs with
      | error e =>
        have h2 := sharedCompile_ok_iff n cs
        rw [hr] at h2
        have hres : answerSelectLimitCompile limit n cs comment = .error e := by
          simp [answerSelectLimitCompile, hl, hr]
        rw [hres]
        refine iff_of_false (by simp [exceptIsError]) (fun h => ?_)
        have : exceptIsError (α := List Choice) (.error e) = false := h2.mpr h.2
        simp [exceptIsError] at this
      | ok cs' =>
        have h2 := sharedCompile_ok_iff n cs
        rw [hr] at h2
        have hres : answerSelectLimitCompile limit n cs comment =
            .ok (.selectLimit cs' comment) := by
          simp [answerSelectLimitCompile, hl, hr]
        rw [hres]
        exact iff_of_true rfl ⟨hl, h2.mp rfl⟩
    · have hres : answerSelectLimitCompile limit n cs comment = .error .answerIsIncorrect := by
        simp [answerSelectLimitCompile, hl]
      rw [hres]
      exact iff_of_false (by simp [exceptIsError]) (fun h => absurd h.1 hl)
  · intro limit n cs comment
    by_cases hl : limit < cs.length
    · have hres : answerRankAtMostCompile limit n cs comment = .error .answerIsIncorrect := by
        simp [answerRankAtMostCompile, hl]
      rw [hres]
      exact iff_of_false (by simp [exceptIsError]) (fun h => by omega)
    · cases hr : sharedCompile n cs with
      | error e =>
        have h2 := sharedCompile_ok_iff n cs
        rw [hr] at h2
        have hres : answerRankAtMostCompile limit n cs comment = .error e := by
          simp [answerRankAtMostCompile, hl, hr]
        rw [hres]
        refine iff_of_false (by simp [exceptIsError]) (fun h => ?_)
        have : exceptIsError (α := List Choice) (.error e) = false := h2.mpr h.2
        simp [exceptIsError] at this
      | ok cs' =>
        have h2 := sharedCompile_ok_iff n cs
        rw [hr] at h2
        have hres : answerRankAtMostCompile limit n cs comment =
            .ok (.rankAtMost cs' comment) := by
          simp [answerRankAtMostCompile, hl, hr]
        rw [hres]
        exact iff_of_true rfl ⟨by omega, h2.mp rfl⟩
  · intro limit n cs comment
    by_cases hl : cs.length = limit
    · cases hr : sharedCompile n cs with
      | error e =>
        have h2 := sharedCompile_ok_iff n cs
        rw [hr] at h2
        have hres : answerRankLimitCompile limit n cs comment = .error e := by
          simp [answerRankLimitCompile, hl, hr]
        rw [hres]
        refine iff_of_false (by simp [exceptIsError]) (fun h => ?_)
        have : exceptIsError (α := List Choice) (.error e) = false := h2.mpr h.2
        simp [exceptIsError] at this
      | ok cs' =>
        have h2 := sharedCompile_ok_iff n cs
        rw [hr] at h2
        have hres : answerRankLimitCompile limit n cs comment =
            .ok (.rankLimit cs' comment) := by
          simp [answerRankLimitCompile, hl, hr]
        rw [hres]
        exact iff_of_true rfl ⟨hl, h2.mp rfl⟩
    · have hres : answerRankLimitCompile limit n cs comment = .error .answerIsIncorrect := by
        simp [answerRankLimitCompile, hl]
      rw [hres]
      exact iff_of_false (by simp [exceptIsError]) (fun h => absurd h.1 hl)

/-! ### C10 -/

/-- C10: a multiple-choice answer is accepted and recorded whenever its
list length equals the limit and each individual index is within the
option count — no distinctness check is applied to the chosen indices,
so a list repeating the same option index compiles and is recorded
verbatim. -/
theorem c10_duplicate_choices_accepted (limit n : Nat)
    (cs : List ChoicePayload) (comment : String)
    (hlen : cs.length = limit) (hidx : ∀ cp ∈ cs, cp.index < n) :
    answerSelectLimitCompile limit n cs comment =
      .ok (.selectLimit (cs.map fun cp => ⟨cp.index, cp.comment⟩) comment) := by
  simp only [answerSelectLimitCompile, if_neg (by omega : ¬ cs.length ≠ limit),
    sharedCompile_ok_val n cs hidx]

/-- C10 witness: a SelectExactly-2 question with a single option is
answered by choosing option 0 twice; the duplicate pair is accepted and
recorded. -/
theorem c10_duplicate_choices_accepted_witness :
    answerSelectLimitCompile 2 1 [⟨0, ""⟩, ⟨0, ""⟩] "" =
      .ok (.selectLimit [⟨0, ""⟩, ⟨0, ""⟩] "") :=
  c10_duplicate_choices_accepted 2 1 [⟨0, ""⟩, ⟨0, ""⟩] "" rfl (by decide)

/-! ### Compiler lemmas for C3, C4, C5 -/

/-- A destination that refutes strict forwardness: its label is unknown
(no map entry), or it resolves to an index at or before the source
question. -/
def badDest (m : LabelMap) (qn : Nat) (t : SourceTransition) : Prop :=
  ∀ d, m.find? t.destination = some d → d.info.index ≤ qn

/-- A successful `finishTransition` yields exactly the built transition. -/
theorem finishTransition_ok {exprOk ocode ps dn c}
    (h : finishTransition exprOk ocode ps dn = .ok c) :
    c = ⟨some ocode, ps, dn⟩ := by
  unfold finishTransition at h
  split at h
  · cases h; rfl
  · exact absurd h (by simp)

/-- A successfully compiled transition goes strictly forward. -/
theorem compileOne_ok_dest {exprOk m qn qpbl qltype isLast t c}
    (h : compileOne exprOk m qn qpbl qltype isLast t = .ok c) : qn < c.dest := by
  unfold compileOne at h
  split at h
  · exact absurd h (by simp)
  · split at h
    · exact absurd h (by simp)
    · split at h
      · exact absurd h (by simp)
      · split at h
        · exact absurd h (by simp)
        · split at h
          · exact absurd h (by simp)
          · split at h
            · exact absurd h (by simp)
            · split at h
              · exact absurd h (by simp)
              · rw [finishTransition_ok h]
                dsimp only
                omega

/-- A transition with a bad destination never compiles. -/
theorem compileOne_badDest {m qn t} (exprOk : String → Bool) (qpbl : Option Nat)
    (qltype : LoopType) (isLast : Bool) (hb : badDest m qn t) :
    exceptIsError (compileOne exprOk m qn qpbl qltype isLast t) = true := by
  unfold compileOne
  split
  · simp [exceptIsError]
  · cases hf : m.find? t.destination with
    | none => simp [exceptIsError]
    | some d =>
      have hle : d.info.index ≤ qn := hb d hf
      simp only
      split
      · simp [exceptIsError]
      · rename_i hne
        have : qn > d.info.index := by omega
        simp [this, exceptIsError]

/-- Every transition produced by `compileList` goes strictly forward. -/
theorem compileList_ok_dest {exprOk m qn qpbl qltype} :
    ∀ l out, compileList exprOk m qn qpbl qltype l = .ok out →
      ∀ c ∈ out, qn < c.dest
  | [], out, h => by
      cases h
      intro c hc
      cases hc
  | [t], out, h => by
      unfold compileList at h
      cases ho : compileOne exprOk m qn qpbl qltype true t with
      | error e => rw [ho] at h; exact absurd h (by simp)
      | ok c =>
        rw [ho] at h
        cases h
        intro c' hc'
        rcases List.mem_singleton.mp hc' with rfl
        exact compileOne_ok_dest ho
  | t :: t2 :: rest, out, h => by
      unfold compileList at h
      cases ho : compileOne exprOk m qn qpbl qltype false t with
      | error e => rw [ho] at h; exact absurd h (by simp)
      | ok c =>
        rw [ho] at h
        cases hl : compileList exprOk m qn qpbl qltype (t2 :: rest) with
        | error e => rw [hl] at h; exact absurd h (by simp)
        | ok cs =>
          rw [hl] at h
          cases h
          intro c' hc'
          rcases List.mem_cons.mp hc' with rfl | hmem
          · exact compileOne_ok_dest ho
          · exact compileList_ok_dest (t2 :: rest) cs hl c' hmem

/-- A bad destination anywhere in the list makes `compileList` fail. -/
theorem compileList_badDest (exprOk : String → Bool) (m : LabelMap) (qn : Nat)
    (qpbl : Option Nat) (qltype : LoopType) :
    ∀ l : List SourceTransition, (∃ t ∈ l, badDest m qn t) →
      exceptIsError (compileList exprOk m qn qpbl qltype l) = true
  | [], h => by
      rcases h with ⟨t, ht, _⟩
      cases ht
  | [t], h => by
      rcases h with ⟨t', ht', hb⟩
      rcases List.mem_singleton.mp ht' with rfl
      unfold compileList
      cases ho : compileOne exprOk m qn qpbl qltype true t' with
      | error e => simp [exceptIsError]
      | ok c =>
        have := compileOne_badDest exprOk qpbl qltype true hb
        rw [ho] at this
        simp [exceptIsError] at this
  | t :: t2 :: rest, h => by
      unfold compileList
      cases ho : compileOne exprOk m qn qpbl qltype false t with
      | error e => simp [exceptIsError]
      | ok c =>
        rcases h with ⟨t', ht', hb⟩
        rcases List.mem_cons.mp ht' with rfl | hmem
        · have := compileOne_badDest exprOk qpbl qltype false hb
          rw [ho] at this
          simp [exceptIsError] at this
        · have := compileList_badDest exprOk m qn qpbl qltype (t2 :: rest) ⟨t', hmem, hb⟩
          cases hl : compileList exprOk m qn qpbl qltype (t2 :: rest) with
          | error e => simp [exceptIsError]
          | ok cs =>
            rw [hl] at this
            simp [exceptIsError] at this

/-- A non-last transition with both condition and code empty never
compiles (the `catch_all_is_not_last` check). -/
theorem compileOne_false_ok_not_catchAll {exprOk m qn qpbl qltype t c}
    (h : compileOne exprOk m qn qpbl qltype false t = .ok c) :
    ¬(t.condition = "" ∧ t.code = "") := by
  intro hcc
  unfold compileOne at h
  rw [if_pos (by simpa using hcc)] at h
  exact absurd h (by simp)

/-- Success of `compileList` forbids an early catch-all: no transition
before the last may have both condition and code empty. -/
theorem compileList_ok_no_early_catchAll {exprOk m qn qpbl qltype} :
    ∀ l out, compileList exprOk m qn qpbl qltype l = .ok out →
      ∀ t ∈ l.dropLast, ¬(t.condition = "" ∧ t.code = "")
  | [], _, _ => by intro t ht; cases ht
  | [t], _, _ => by intro t' ht'; simp [List.dropLast] at ht'
  | t :: t2 :: rest, out, h => by
      intro t' ht'
      unfold compileList at h
      cases ho : compileOne exprOk m qn qpbl qltype false t with
      | error e => rw [ho] at h; exact absurd h (by simp)
      | ok c =>
        rw [ho] at h
        cases hl : compileList exprOk m qn qpbl qltype (t2 :: rest) with
        | error e => rw [hl] at h; exact absurd h (by simp)
        | ok cs =>
          rw [hl] at h
          have hdl : (t :: t2 :: rest).dropLast = t :: (t2 :: rest).dropLast := rfl
          rw [hdl] at ht'
          rcases List.mem_cons.mp ht' with rfl | hmem
          · exact compileOne_false_ok_not_catchAll ho
          · exact compileList_ok_no_early_catchAll (t2 :: rest) cs hl t' hmem

/-- An early catch-all anywhere makes `compileList` fail. -/
theorem compileList_early_catchAll_err (exprOk : String → Bool) (m : LabelMap)
    (qn : Nat) (qpbl : Option Nat) (qltype : LoopType) :
    ∀ l : List SourceTransition,
      (∃ t ∈ l.dropLast, t.condition = "" ∧ t.code = "") →
      exceptIsError (compileList exprOk m qn qpbl qltype l) = true
  | [], h => by
      rcases h with ⟨t, ht, _⟩
      cases ht
  | [t], h => by
      rcases h with ⟨t', ht', _⟩
      simp [List.dropLast] at ht'
  | t :: t2 :: rest, h => by
      unfold compileList
      cases ho : compileOne exprOk m qn qpbl qltype false t with
      | error e => simp [exceptIsError]
      | ok c =>
        rcases h with ⟨t', ht', hb⟩
        have hdl : (t :: t2 :: rest).dropLast = t :: (t2 :: rest).dropLast := rfl
        rw [hdl] at ht'
        rcases List.mem_cons.mp ht' with rfl | hmem
        · exact absurd hb (compileOne_false_ok_not_catchAll ho)
        · have := compileList_early_catchAll_err exprOk m qn qpbl qltype (t2 :: rest) ⟨t', hmem, hb⟩
          cases hl : compileList exprOk m qn qpbl qltype (t2 :: rest) with
          | error e => simp [exceptIsError]
          | ok cs =>
            rw [hl] at this
            simp [exceptIsError] at this

/-- Success of the parameter loop of `source_function::compile` is
equivalent to every parameter resolving to a strictly earlier question
with the same loop nest. -/
theorem sourceFunctionParams_ok_iff (m : LabelMap) (qi : QInfo) :
    ∀ pars : List String,
      (∃ out, sourceFunctionParams m qi pars = .ok out) ↔
        ∀ p ∈ pars, ∃ e, m.find? p = some e ∧ e.info.index < qi.index ∧
          e.info.loopNest = qi.loopNest
  | [] => by simp [sourceFunctionParams]
  | p :: rest => by
      have ih := sourceFunctionParams_ok_iff m qi rest
      cases hf : m.find? p with
      | none =>
        simp only [sourceFunctionParams, hf]
        refine iff_of_false (by rintro ⟨out, h⟩; exact absurd h (by simp)) (fun h => ?_)
        rcases h p (List.mem_cons_self p rest) with ⟨e, he, _⟩
        rw [hf] at he
        cases he
      | some f =>
        by_cases h1 : qi.index = f.info.index
        · simp only [sourceFunctionParams, hf, if_pos h1]
          refine iff_of_false (by rintro ⟨out, h⟩; exact absurd h (by simp)) (fun h => ?_)
          rcases h p (List.mem_cons_self p rest) with ⟨e, he, hlt, _⟩
          rw [hf] at he
          cases he
          omega
        · by_cases h2 : qi.index < f.info.index
          · simp only [sourceFunctionParams, hf, if_neg h1, if_pos h2]
            refine iff_of_false (by rintro ⟨out, h⟩; exact absurd h (by simp)) (fun h => ?_)
            rcases h p (List.mem_cons_self p rest) with ⟨e, he, hlt, _⟩
            rw [hf] at he
            cases he
            omega
          · by_cases h3 : qi.loopNest ≠ f.info.loopNest
            · simp only [sourceFunctionParams, hf, if_neg h1, if_neg h2, if_pos h3]
              refine iff_of_false (by rintro ⟨out, h⟩; exact absurd h (by simp)) (fun h => ?_)
              rcases h p (List.mem_cons_self p rest) with ⟨e, he, _, hnest⟩
              rw [hf] at he
              cases he
              exact h3 hnest.symm
            · cases hr : sourceFunctionParams m qi rest with
              | error e =>
                simp only [sourceFunctionParams, hf, if_neg h1, if_neg h2, if_neg h3, hr]
                rw [hr] at ih
                refine iff_of_false (by rintro ⟨out, h⟩; exact absurd h (by simp)) (fun h => ?_)
                rcases ih.mpr (fun p' hp' => h p' (List.mem_cons_of_mem p hp')) with ⟨out, hout⟩
                exact absurd hout (by simp)
              | ok rs =>
                simp only [sourceFunctionParams, hf, if_neg h1, if_neg h2, if_neg h3, hr]
                rw [hr] at ih
                refine iff_of_true ⟨f.info.index :: rs, rfl⟩ ?_
                intro p' hp'
                rcases List.mem_cons.mp hp' with rfl | hmem
                · exact ⟨f, hf, by omega, by
                    by_contra hne
                    exact h3 (fun heq => hne heq.symm)⟩
                · exact (ih.mp ⟨rs, rfl⟩) p' hmem

/-- Success of the transition-argument loop is equivalent to every
argument label existing in the map; nothing else is required. -/
theorem checkArgs_ok_iff (m : LabelMap) :
    ∀ pars : List String,
      (∃ out, checkArgs m pars = .ok out) ↔ ∀ p ∈ pars, ∃ e, m.find? p = some e
  | [] => by simp [checkArgs]
  | p :: rest => by
      have ih := checkArgs_ok_iff m rest
      cases hf : m.find? p with
      | none =>
        simp only [checkArgs, hf]
        refine iff_of_false (by rintro ⟨out, h⟩; exact absurd h (by simp)) (fun h => ?_)
        rcases h p (List.mem_cons_self p rest) with ⟨e, he⟩
        rw [hf] at he
        cases he
      | some f =>
        cases hr : checkArgs m rest with
        | error e =>
          simp only [checkArgs, hf, hr]
          rw [hr] at ih
          refine iff_of_false (by rintro ⟨out, h⟩; exact absurd h (by simp)) (fun h => ?_)
          rcases ih.mpr (fun p' hp' => h p' (List.mem_cons_of_mem p hp')) with ⟨out, hout⟩
          exact absurd hout (by simp)
        | ok rs =>
          simp only [checkArgs, hf, hr]
          rw [hr] at ih
          refine iff_of_true ⟨f.info.index :: rs, rfl⟩ ?_
          intro p' hp'
          rcases List.mem_cons.mp hp' with rfl | hmem
          · exact ⟨f, hf⟩
          · exact (ih.mp ⟨rs, rfl⟩) p' hmem

/-! ### Concrete compiler inputs used by the counterexamples and witnesses -/

/-- An `Expr` oracle accepting every snippet. -/
def exprOkAll : String → Bool := fun _ => true

/-- A two-question label map: question `a` at index 0 and question `b`
at index 1, both top-level regular questions. -/
def mapAB : LabelMap :=
  [⟨"a", ⟨0, [], none⟩, .regular⟩, ⟨"b", ⟨1, [], none⟩, .regular⟩]

/-! ### C3 -/

/-- C3 counterexample: question `a` (index 0) carries a transition whose
condition lists `a` itself as a parameter; `compile_transitions` accepts
it (only existence of the label is checked on transition-condition
parameters), while the same self-parameter on a text-function is
rejected by `source_function::compile`.  The claim's statement that a
self parameter is rejected "on a transition condition alike" is
therefore false. -/
theorem c3_counterexample :
    compileTransitions exprOkAll mapAB ⟨0, [], none⟩ .regular false 2
        [⟨"c", "", "b", ["a"]⟩, ⟨"", "", "b", []⟩] =
      .ok [⟨some "c", [0], 1⟩, ⟨some "", [], 1⟩] ∧
    sourceFunctionCompile mapAB ⟨0, [], none⟩ "c" ["a"] =
      .error .parameterRefersToSelf := by
  constructor <;> rfl

/-- Failing is the negation of succeeding with some value. -/
theorem exceptIsError_false_iff {ε α : Type _} (x : Except ε α) :
    exceptIsError x = false ↔ ∃ a, x = .ok a := by
  cases x <;> simp [exceptIsError]

/-- C3 amended: a text-function parameter is accepted exactly when it
resolves to an existing, strictly earlier question with the same loop
nest (and the function has code); a transition-condition parameter is
accepted exactly when its label exists — self, subsequent and
different-nest parameters are not rejected there. -/
theorem c3_parameter_checks_amended (m : LabelMap) (qi : QInfo)
    (code : String) (pars : List String) :
    (exceptIsError (sourceFunctionCompile m qi code pars) = false ↔
       (code ≠ "" ∧ ∀ p ∈ pars, ∃ e, m.find? p = some e ∧
          e.info.index < qi.index ∧ e.info.loopNest = qi.loopNest)) ∧
    (exceptIsError (checkArgs m pars) = false ↔
       ∀ p ∈ pars, ∃ e, m.find? p = some e) := by
  refine ⟨?_, (exceptIsError_false_iff _).trans (checkArgs_ok_iff m pars)⟩
  refine (exceptIsError_false_iff _).trans ?_
  by_cases hc : code = ""
  · simp only [sourceFunctionCompile, if_pos hc]
    refine iff_of_false (by rintro ⟨out, h⟩; exact absurd h (by simp)) (fun h => h.1 hc)
  · simp only [sourceFunctionCompile, if_neg hc]
    constructor
    · intro h
      exact ⟨hc, (sourceFunctionParams_ok_iff m qi pars).mp h⟩
    · intro h
      exact (sourceFunctionParams_ok_iff m qi pars).mpr h.2

/-- C3 amended witness: question `b` (index 1) may use the earlier
question `a` as a text-function parameter, and `a` as a transition
argument; both succeed on the concrete map. -/
theorem c3_parameter_checks_amended_witness :
    exceptIsError (sourceFunctionCompile mapAB ⟨1, [], none⟩ "c" ["a"]) = false ∧
    exceptIsError (checkArgs mapAB ["a"]) = false :=
  ⟨(c3_parameter_checks_amended mapAB ⟨1, [], none⟩ "c" ["a"]).1.mpr
      ⟨by decide, by
        intro p hp
        rcases List.mem_singleton.mp hp with rfl
        exact ⟨⟨"a", ⟨0, [], none⟩, .regular⟩, rfl, by decide, rfl⟩⟩,
   (c3_parameter_checks_amended mapAB ⟨1, [], none⟩ "c" ["a"]).2.mpr
      (by
        intro p hp
        rcases List.mem_singleton.mp hp with rfl
        exact ⟨⟨"a", ⟨0, [], none⟩, .regular⟩, rfl⟩)⟩

/-- C2 amended witness: a concrete optional input with a non-empty text
is accepted through the amended characterization. -/
theorem c2_answer_validation_amended_witness :
    answerInputCompile ⟨false, true⟩ "hello" "" = .ok (.input "hello" "") :=
  c2_answer_validation_amended.1 ⟨false, true⟩ "hello" ""

/-! ### C4 -/

/-- C4 counterexample: a question with two transitions whose last has an
empty condition but non-empty code compiles successfully, although that
last transition is not a catch-all in the claim's sense (empty condition
and empty code); only the condition's emptiness is checked. -/
theorem c4_counterexample :
    compileTransitions exprOkAll mapAB ⟨0, [], none⟩ .regular false 2
        [⟨"c", "", "b", []⟩, ⟨"", "x", "b", []⟩] =
      .ok [⟨some "c", [], 1⟩, ⟨some "x", [], 1⟩] := by
  rfl

/-- C4 amended: for a question with source transitions, compilation
requires the last transition to have an empty condition (its code may be
non-empty) and no non-last transition to have both condition and code
empty, failing otherwise; a potentially-final question may have zero
transitions (compiling to zero), and a non-final question with zero
source transitions gets a single synthesized unconditional transition to
the next question in order. -/
theorem c4_transition_shape_amended (exprOk : String → Bool) (m : LabelMap)
    (qqi : QInfo) (qltype : LoopType) (canBeFinal : Bool) (total : Nat)
    (srcTs : List SourceTransition) (out : List CompiledTransition) :
    (compileTransitions exprOk m qqi qltype canBeFinal total srcTs = .ok out →
       ((∀ tl, srcTs.getLast? = some tl → tl.condition = "") ∧
        (∀ t ∈ srcTs.dropLast, ¬(t.condition = "" ∧ t.code = "")) ∧
        (srcTs = [] → canBeFinal = true → out = []) ∧
        (srcTs = [] → canBeFinal = false → qqi.index + 1 < total →
          out = [⟨none, [], qqi.index + 1⟩]))) ∧
    (∀ tl, srcTs.getLast? = some tl → tl.condition ≠ "" →
       exceptIsError (compileTransitions exprOk m qqi qltype canBeFinal total srcTs) = true) ∧
    ((∃ t ∈ srcTs.dropLast, t.condition = "" ∧ t.code = "") →
       exceptIsError (compileTransitions exprOk m qqi qltype canBeFinal total srcTs) = true) := by
  refine ⟨?_, ?_, ?_⟩
  · intro h
    cases srcTs with
    | nil =>
      refine ⟨(by intro tl htl; cases htl), (by intro t ht; cases ht), ?_, ?_⟩
      · intro _ hcbf
        rw [hcbf] at h
        simp only [compileTransitions, if_pos rfl] at h
        cases h
        rfl
      · intro _ hcbf hlt
        rw [hcbf] at h
        simp only [compileTransitions] at h
        rw [if_neg (by simp), if_neg (by omega), if_pos hlt] at h
        cases h
        rfl
    | cons t ts =>
      simp only [compileTransitions] at h
      cases hL : (t :: ts).getLast? with
      | none => simp [List.getLast?_eq_none_iff] at hL
      | some tl =>
        simp only [hL] at h
        by_cases hcond : tl.condition ≠ ""
        · rw [if_pos hcond] at h
          exact absurd h (by simp)
        · rw [if_neg hcond] at h
          refine ⟨?_, compileList_ok_no_early_catchAll (t :: ts) out h, ?_, ?_⟩
          · intro tl' htl'
            cases htl'
            by_contra hne
            exact hcond hne
          · intro hnil; cases hnil
          · intro hnil; cases hnil
  · intro tl hL hcond
    cases srcTs with
    | nil => cases hL
    | cons t ts =>
      simp only [compileTransitions, hL]
      rw [if_pos hcond]
      rfl
  · intro hearly
    cases srcTs with
    | nil =>
      rcases hearly with ⟨t, ht, _⟩
      cases ht
    | cons t ts =>
      simp only [compileTransitions]
      cases hL : (t :: ts).getLast? with
      | none => simp [List.getLast?_eq_none_iff] at hL
      | some tl =>
        simp only [hL]
        by_cases hcond : tl.condition ≠ ""
        · rw [if_pos hcond]
          rfl
        · rw [if_neg hcond]
          exact compileList_early_catchAll_err exprOk m qqi.index qqi.parentBeginLoop
            qltype (t :: ts) hearly

/-- C4 witness: a single source transition with a non-empty condition is
rejected (the last transition must have an empty condition). -/
theorem c4_transition_shape_amended_witness :
    exceptIsError (compileTransitions exprOkAll mapAB ⟨0, [], none⟩ .regular
      false 2 [⟨"y", "", "b", []⟩]) = true :=
  (c4_transition_shape_amended exprOkAll mapAB ⟨0, [], none⟩ .regular false 2
    [⟨"y", "", "b", []⟩] []).2.1 ⟨"y", "", "b", []⟩ rfl (by decide)

/-! ### C5 -/

/-- C5: in every successfully compiled transition list the destination
index is strictly greater than the source question's index (both the
validated and the synthesized transitions), and a source transition
whose destination label is unknown or resolves to an index at or before
the source makes compilation fail. -/
theorem c5_transitions_strictly_forward (exprOk : String → Bool) (m : LabelMap)
    (qqi : QInfo) (qltype : LoopType) (canBeFinal : Bool) (total : Nat)
    (srcTs : List SourceTransition) (out : List CompiledTransition) :
    (compileTransitions exprOk m qqi qltype canBeFinal total srcTs = .ok out →
       ∀ c ∈ out, qqi.index < c.dest) ∧
    ((∃ t ∈ srcTs, badDest m qqi.index t) →
       exceptIsError (compileTransitions exprOk m qqi qltype canBeFinal total srcTs) = true) := by
  constructor
  · intro h
    cases srcTs with
    | nil =>
      simp only [compileTransitions] at h
      by_cases hcbf : canBeFinal = true
      · rw [if_pos hcbf] at h
        cases h
        intro c hc
        cases hc
      · rw [if_neg hcbf] at h
        by_cases h1 : total ≤ qqi.index
        · rw [if_pos h1] at h
          exact absurd h (by simp)
        · rw [if_neg h1] at h
          by_cases h2 : qqi.index + 1 < total
          · rw [if_pos h2] at h
            cases h
            intro c hc
            rcases List.mem_singleton.mp hc with rfl
            simp
          · rw [if_neg h2] at h
            exact absurd h (by simp)
    | cons t ts =>
      simp only [compileTransitions] at h
      cases hL : (t :: ts).getLast? with
      | none => simp [List.getLast?_eq_none_iff] at hL
      | some tl =>
        simp only [hL] at h
        by_cases hcond : tl.condition ≠ ""
        · rw [if_pos hcond] at h
          exact absurd h (by simp)
        · rw [if_neg hcond] at h
          exact compileList_ok_dest (t :: ts) out h
  · intro hbad
    cases srcTs with
    | nil =>
      rcases hbad with ⟨t, ht, _⟩
      cases ht
    | cons t ts =>
      simp only [compileTransitions]
      cases hL : (t :: ts).getLast? with
      | none => simp [List.getLast?_eq_none_iff] at hL
      | some tl =>
        simp only [hL]
        by_cases hcond : tl.condition ≠ ""
        · rw [if_pos hcond]
          rfl
        · rw [if_neg hcond]
          exact compileList_badDest exprOk m qqi.index qqi.parentBeginLoop qltype
            (t :: ts) hbad

/-- C5 witness: question `b` (index 1) transitioning back to question
`a` (index 0) is rejected. -/
theorem c5_transitions_strictly_forward_witness :
    exceptIsError (compileTransitions exprOkAll mapAB ⟨1, [], none⟩ .regular
      false 2 [⟨"", "", "a", []⟩]) = true :=
  (c5_transitions_strictly_forward exprOkAll mapAB ⟨1, [], none⟩ .regular false 2
    [⟨"", "", "a", []⟩] []).2
    ⟨⟨"", "", "a", []⟩, List.mem_singleton.mpr rfl, fun d hd => by cases hd; decide⟩

/-! ### C6 -/

/-- A transition runs to its destination exactly when it is enabled
(condition absent, empty, or truthy). -/
theorem transition_run_eq_enabled (O : Oracle) (st : Stack) (t : Transition) :
    t.run O st = if t.enabled O st then some t.dest else none := by
  cases hc : t.cond with
  | none => simp [Transition.run, Transition.enabled, hc]
  | some c =>
    by_cases he : c = ""
    · simp [Transition.run, Transition.enabled, hc, he]
    · by_cases hv : O.evalCond c (t.params.map fun p => (p, st.findAnswer p)) = true
      · simp [Transition.run, Transition.enabled, hc, he, hv]
      · simp [Transition.run, Transition.enabled, hc, he, hv]

/-- C6: `run_transitions` returns the destination of the first
transition, in list order, whose condition is absent, empty or truthy
(the first enabled one); and when the last transition of a non-empty
list is a catch-all (no condition function, or an empty condition code —
the shape compilation guarantees for well-formed non-terminal
questions), some destination is always returned: no fall-through past
the last transition is possible. -/
theorem c6_run_transitions_first_enabled (O : Oracle) (st : Stack)
    (ts : List Transition) :
    (runTransitionsList O st ts =
       (ts.find? (Transition.enabled O st)).map (·.dest)) ∧
    ((∃ tl, ts.getLast? = some tl ∧ (tl.cond = none ∨ tl.cond = some "")) →
       ∃ d, runTransitionsList O st ts = some d) := by
  have hfst : runTransitionsList O st ts =
      (ts.find? (Transition.enabled O st)).map (·.dest) := by
    induction ts with
    | nil => rfl
    | cons t rest ih =>
      simp only [runTransitionsList]
      rw [transition_run_eq_enabled]
      by_cases he : Transition.enabled O st t = true
      · simp [List.find?_cons, he]
      · simp only [List.find?_cons, he, if_neg (by simp [he] : ¬Transition.enabled O st t = true)]
        simpa using ih
  refine ⟨hfst, ?_⟩
  rintro ⟨tl, htl, hshape⟩
  have hmem : tl ∈ ts := by
    rcases List.mem_getLast?_eq_getLast (Option.mem_def.mpr htl) with ⟨hne, heq⟩
    rw [heq]
    exact List.getLast_mem hne
  have hen : Transition.enabled O st tl = true := by
    rcases hshape with hc | hc <;> simp [Transition.enabled, hc]
  have hfind : ∀ l : List Transition, (∃ x ∈ l, Transition.enabled O st x = true) →
      ∃ y, l.find? (Transition.enabled O st) = some y := by
    intro l
    induction l with
    | nil =>
      rintro ⟨x, hx, _⟩
      cases hx
    | cons a as ih =>
      rintro ⟨x, hx, hxe⟩
      by_cases ha : Transition.enabled O st a = true
      · exact ⟨a, by simp [List.find?_cons, ha]⟩
      · rcases List.mem_cons.mp hx with rfl | hxm
        · exact absurd hxe ha
        · rcases ih ⟨x, hxm, hxe⟩ with ⟨y, hy⟩
          exact ⟨y, by simp [List.find?_cons, ha, hy]⟩
  rcases hfind ts ⟨tl, hmem, hen⟩ with ⟨y, hy⟩
  exact ⟨y.dest, by rw [hfst, hy]; rfl⟩

/-- Oracle used by the concrete witnesses: a condition is truthy exactly
when its code is the string `T`. -/
def oracleT : Oracle where
  evalCond := fun c _ => c == "T"
  loopOperand := fun _ _ _ => .null
  calcText := fun _ _ => ""

/-- C6 witness: a falsy first transition followed by a catch-all yields
the catch-all's destination; in particular no fall-through occurs. -/
theorem c6_run_transitions_first_enabled_witness :
    runTransitionsList oracleT Stack.empty
        [⟨some "F", [], 3⟩, ⟨some "", [], 7⟩] =
      (([⟨some "F", [], 3⟩, ⟨some "", [], 7⟩] : List Transition).find?
        (Transition.enabled oracleT Stack.empty)).map (·.dest) ∧
    ∃ d, runTransitionsList oracleT Stack.empty
        [⟨some "F", [], 3⟩, ⟨some "", [], 7⟩] = some d :=
  ⟨(c6_run_transitions_first_enabled oracleT Stack.empty
      [⟨some "F", [], 3⟩, ⟨some "", [], 7⟩]).1,
   (c6_run_transitions_first_enabled oracleT Stack.empty
      [⟨some "F", [], 3⟩, ⟨some "", [], 7⟩]).2
      ⟨⟨some "", [], 7⟩, rfl, Or.inr rfl⟩⟩

/-! ### C8 -/

/-- C8: `questionnaire_localization::check` is a no-op whenever the
stored questionnaire change count equals the questionnaire's current
one — it succeeds immediately, for any library state, without any
validation work; and after any successful check, a second check on the
unchanged questionnaire (again under any library state) returns the
localization unchanged and cannot fail. -/
theorem c8_check_idempotent (lib lib2 : List Nat) (qq : QuestionnaireDoc)
    (ql ql' : QLocalizationDoc) :
    (ql.qChangeCount = qq.changeCount → qlCheck lib qq ql = .ok ql) ∧
    (qlCheck lib qq ql = .ok ql' → qlCheck lib2 qq ql' = .ok ql') := by
  constructor
  · intro h
    simp [qlCheck, h]
  · intro h
    by_cases he : ql.qChangeCount = qq.changeCount
    · rw [qlCheck, if_pos he] at h
      cases h
      simp [qlCheck, he]
    · rw [qlCheck, if_neg he] at h
      cases hf : forceCheck lib qq ql with
      | error e =>
        rw [hf] at h
        exact absurd h (by simp)
      | ok u =>
        rw [hf] at h
        cases h
        simp [qlCheck]

/-- C8 witness: a one-question questionnaire (change count 1) with a
fresh localization (stored count 0): the first check validates and
records count 1, and a second check is a no-op even with an empty
template library. -/
theorem c8_check_idempotent_witness :
    qlCheck [] ⟨[⟨true, false⟩], false, 1⟩ ⟨1, [0]⟩ = .ok ⟨1, [0]⟩ :=
  (c8_check_idempotent [7] [] ⟨[⟨true, false⟩], false, 1⟩ ⟨0, [0]⟩ ⟨1, [0]⟩).2 rfl

/-! ### Interpreter lemmas and concrete scenarios for C1 and C7 -/

/-- A freshly built stack frame starts at loop index 0. -/
theorem mkFrame_index (O : Oracle) (st : Stack) (qbl : Nat) (loa : Answer) :
    (mkFrame O st qbl loa).index = 0 := rfl

/-- Entering a begin loop whose frame is not already on top pushes a
fresh frame (index 0) onto the stack. -/
theorem processBeginLoop_enter {O : Oracle} {st : Stack} {qbl opq : Nat}
    {loa : Answer} {stk' : Stack}
    (h : st.processBeginLoop O qbl opq = (some loa, stk'))
    (hpush : ∀ f, st.frames.head? = some f → f.qbl ≠ qbl) :
    ∃ rest, stk'.frames = mkFrame O st qbl loa :: rest := by
  unfold Stack.processBeginLoop at h
  cases hf : st.findAnswer opq with
  | none =>
    simp only [hf] at h
    simp at h
  | some loa0 =>
    simp only [hf] at h
    by_cases hlv : loopVarValue O st qbl loa0 0 = .null
    · rw [if_pos hlv] at h
      simp at h
    · rw [if_neg hlv] at h
      have hloa : loa0 = loa := by
        have := congrArg Prod.fst h
        simpa using this
      have hstk : st.processBeginLoopEntry O qbl loa0 = stk' := by
        have := congrArg Prod.snd h
        simpa using this
      subst hloa
      rw [← hstk]
      unfold Stack.processBeginLoopEntry
      cases hfr : st.frames with
      | nil => exact ⟨[], rfl⟩
      | cons f fr =>
        have hne : f.qbl ≠ qbl := hpush f (by rw [hfr]; rfl)
        exact ⟨f :: fr, by simp [hne]⟩

/-- The questionnaire used by the concrete loop scenarios: an input
(q0), a loop over q0's answer (q1: BeginLoop, q2: Input, q3: EndLoop),
an input after the loop (q4) and a final message (q5); every non-final
question carries the synthesized catch-all to the next question. -/
def questionnaireLoop : Questionnaire :=
  [ ⟨.regular, false, 0, [], [⟨none, [], 1⟩]⟩,
    ⟨.beginLoop, false, 0, [], [⟨none, [], 2⟩]⟩,
    ⟨.regular, false, 0, [], [⟨none, [], 3⟩]⟩,
    ⟨.endLoop, false, 0, [], [⟨none, [], 4⟩]⟩,
    ⟨.regular, false, 0, [], [⟨none, [], 5⟩]⟩,
    ⟨.regular, true, 0, [], []⟩ ]

/-- Oracle whose loop operand always evaluates to the two-element array
`["a", "b"]`; conditions are falsy and parametric texts constant. -/
def oracleAB : Oracle where
  evalCond := fun _ _ => false
  loopOperand := fun _ _ _ => .arr [.str "a", .str "b"]
  calcText := fun _ _ => ""

/-- Oracle whose loop operand always evaluates to the empty array, so
the 0-th loop-variable value is absent and every loop is skipped. -/
def oracleEmptyOperand : Oracle where
  evalCond := fun _ _ => false
  loopOperand := fun _ _ _ => .arr []
  calcText := fun _ _ => ""

/-- The answer to q0. -/
def ansQ0 : Answer := ⟨0, .input "zero" ""⟩

/-- The first-iteration answer to q2. -/
def ansQ2first : Answer := ⟨2, .input "x" ""⟩

/-- The second-iteration answer to q2. -/
def ansQ2second : Answer := ⟨2, .input "y" ""⟩

/-- A freshly started interview positioned at q0. -/
def ivInit : Interview := ⟨[], 0, false⟩

/-! ### C1 -/

/-- C1 counterexample: submitting the answer to q0 when the loop operand
evaluates to an empty array skips the loop — the interpreter runs the
matching EndLoop's (q3) transitions and lands on q4 — but, contrary to
the claim, no `EndLoopEntry` is pushed onto the interview history: the
history holds only the submitted answer. -/
theorem c1_counterexample :
    Interview.submit questionnaireLoop oracleEmptyOperand 12 ivInit ansQ0 =
      some ⟨[.answer ansQ0], 4, false⟩ ∧
    Entry.endLoop 3 ∉ ([.answer ansQ0] : List Entry) := by
  constructor
  · rfl
  · decide

/-- C1 amended: when `advance` reaches a BeginLoop whose operand answer
is absent from the current stack or whose 0-th loop-variable value is
null/absent, it skips the loop by running the matching EndLoop's
transitions and continuing from there, pushing no entry onto the
interview history; otherwise it pushes a stack frame with index 0,
pushes a `BeginLoopEntry` recording index 0, and runs the BeginLoop's
transitions.  (Both continuations are stated up to a regular
destination.) -/
theorem c1_begin_loop_amended (Q : Questionnaire) (O : Oracle) (fuel : Nat)
    (st : IState) (qi : Nat) (q : Question)
    (hq : List.get? Q qi = some q) (hbl : q.ltype = .beginLoop) :
    (∀ qel qelq q' q'q,
       st.stk.processBeginLoop O qi q.operandQuestion = (none, st.stk) →
       findMatchingEndLoop Q qi = some qel →
       List.get? Q qel = some qelq →
       qelq.runTransitions O st.stk = some q' →
       List.get? Q q' = some q'q → q'q.ltype = .regular →
       calcNewNext Q O (fuel + 2) st qi = some (st, q')) ∧
    (∀ loa stk' q' q'q,
       st.stk.processBeginLoop O qi q.operandQuestion = (some loa, stk') →
       (∀ f, st.stk.frames.head? = some f → f.qbl ≠ qi) →
       q.runTransitions O stk' = some q' →
       List.get? Q q' = some q'q → q'q.ltype = .regular →
       calcNewNext Q O (fuel + 2) st qi =
         some (⟨st.hist ++ [.beginLoop qi loa 0], stk'⟩, q')) := by
  constructor
  · intro qel qelq q' q'q hskip hfind hqel hrun hq' hreg
    have h1 : calcNewNext Q O (fuel + 2) st qi = calcNewNext Q O (fuel + 1) st q' := by
      simp only [calcNewNext, hq, hbl, hskip, hfind, hqel, hrun]
    rw [h1]
    simp only [calcNewNext, hq', hreg]
  · intro loa stk' q' q'q henter hpush hrun hq' hreg
    rcases processBeginLoop_enter henter hpush with ⟨rest, hframes⟩
    have hidx : (match stk'.frames with | f :: _ => f.index | [] => 0) = 0 := by
      rw [hframes]
      rfl
    have h1 : calcNewNext Q O (fuel + 2) st qi =
        calcNewNext Q O (fuel + 1) ⟨st.hist ++ [.beginLoop qi loa 0], stk'⟩ q' := by
      simp only [calcNewNext, hq, hbl, henter, hrun, hidx]
    rw [h1]
    simp only [calcNewNext, hq', hreg]

/-- C1 witness: on the concrete loop questionnaire, the empty-operand
oracle skips the loop at q1 and continues at q4 with nothing recorded,
while the two-element-operand oracle enters it, recording the
`BeginLoopEntry` at index 0 and continuing at q2. -/
theorem c1_begin_loop_amended_witness :
    calcNewNext questionnaireLoop oracleEmptyOperand 12
        ⟨[.answer ansQ0], ⟨[], [(0, ansQ0)]⟩⟩ 1 =
      some (⟨[.answer ansQ0], ⟨[], [(0, ansQ0)]⟩⟩, 4) ∧
    calcNewNext questionnaireLoop oracleAB 12
        ⟨[.answer ansQ0], ⟨[], [(0, ansQ0)]⟩⟩ 1 =
      some (⟨[.answer ansQ0, .beginLoop 1 ansQ0 0],
        Stack.processBeginLoopEntry ⟨[], [(0, ansQ0)]⟩ oracleAB 1 ansQ0⟩, 2) :=
  ⟨(c1_begin_loop_amended questionnaireLoop oracleEmptyOperand 10
      ⟨[.answer ansQ0], ⟨[], [(0, ansQ0)]⟩⟩ 1 _ rfl rfl).1 3 _ 4 _
      (by decide) rfl rfl rfl rfl rfl,
   (c1_begin_loop_amended questionnaireLoop oracleAB 10
      ⟨[.answer ansQ0], ⟨[], [(0, ansQ0)]⟩⟩ 1 _ rfl rfl).2 ansQ0
      (Stack.processBeginLoopEntry ⟨[], [(0, ansQ0)]⟩ oracleAB 1 ansQ0) 2 _
      (by decide) (by intro f hf; cases hf) rfl rfl rfl⟩

/-! ### C7 -/

/-- History and next question after submitting `ansQ0`. -/
def ivStep1 : Interview := ⟨[.answer ansQ0, .beginLoop 1 ansQ0 0], 2, false⟩

/-- History and next question after also submitting `ansQ2first`. -/
def ivStep2 : Interview :=
  ⟨[.answer ansQ0, .beginLoop 1 ansQ0 0, .answer ansQ2first, .endLoop 3], 2, false⟩

/-- History and next question after also submitting `ansQ2second`:
the loop is exhausted and the interview stands at q4. -/
def ivStep3 : Interview :=
  ⟨[.answer ansQ0, .beginLoop 1 ansQ0 0, .answer ansQ2first, .endLoop 3,
    .answer ansQ2second, .endLoop 3], 4, false⟩

/-- The interview produced by revising the first answer of `ivStep3`
with the identical answer: the whole second loop iteration is gone. -/
def ivRevised : Interview :=
  ⟨[.answer ansQ0, .beginLoop 1 ansQ0 0, .answer ansQ2first, .endLoop 3], 4, false⟩

/-- C7: the failing run.  An ongoing interview is produced by three
submits (its loop iterated twice); revising the history's first answer
with the identical answer (same question, same body) then truncates the
second loop iteration — the replay runs the EndLoop's own transitions
while the loop is still iterating, lands on q4 instead of the recorded
q2, and resects — so the history is not preserved, contradicting the
claim (and spec §8's revise idempotence). -/
theorem c7_revise_not_idempotent :
    Interview.submit questionnaireLoop oracleAB 12 ivInit ansQ0 = some ivStep1 ∧
    Interview.submit questionnaireLoop oracleAB 12 ivStep1 ansQ2first = some ivStep2 ∧
    Interview.submit questionnaireLoop oracleAB 12 ivStep2 ansQ2second = some ivStep3 ∧
    Interview.reviseAnswer questionnaireLoop oracleAB 12 ivStep3 0 ansQ0 =
      some ivRevised ∧
    ivRevised.hist ≠ ivStep3.hist := by
  refine ⟨rfl, rfl, rfl, rfl, ?_⟩
  decide

/-! ### C9 -/

/-- Eleven text-function values (valid indices 0..10). -/
def fnsEleven : List JVal := List.replicate 11 (.str "v")

/-- Twelve text-function values, the value at index `i` rendering as the
decimal string of `i`. -/
def fnsTwelve : List JVal := (List.range 12).map fun i => .str (toString i)

/-- C9: the escape `@\x7b10\x7d` does not call text-function 10.  The
digit accumulation `funcn += funcn * 10 + c - '0'` (ontology.cpp:302)
computes 11 for the digits `10`, so with eleven text-functions (valid
indices 0..10) rendering fails with `function_call_out_of_bounds`
although 10 is a valid index, and with twelve text-functions the value
of function 11 — not 10 — is substituted. -/
theorem c9_function_index_misparsed :
    calculateText fnsEleven false [] "@\x7b10\x7d" =
      .error .functionCallOutOfBounds ∧
    calculateText fnsTwelve false [] "@\x7b10\x7d" = .ok "11" := by
  constructor <;> rfl

end Interviews
